import Mathlib

/-
Verification of the Orion timeline and subtitle alignment core
(`ops/media/orion/core`): timecode conversions, the gap rule engine,
the timeline builder, the largest-remainder cue distribution, the
SRT parser and the committed cue-to-segment alignment of
`write_timecode_srt`.

Machine reals (Python floats) are embedded as exact rationals `ℚ`;
Python `int` is embedded as `ℤ`/`ℕ`.  Python's `int()` truncation,
`round()` (banker's rounding), `//` and `%` (floor division,
divisor-signed modulus) are embedded explicitly below.
-/

/-- Embedding of Python `int(q)` applied to a real value: truncation toward zero. -/
def pyInt (q : ℚ) : ℤ := if 0 ≤ q then ⌊q⌋ else ⌈q⌉

/-- Embedding of Python `round(q)` (one-argument form): round half to even. -/
def pyRound (q : ℚ) : ℤ :=
  let f := ⌊q⌋
  let r := q - f
  if r < 1/2 then f
  else if 1/2 < r then f + 1
  else if Even f then f else f + 1

/-- Embedding of Python `round(q, 3)`: round to the nearest multiple of 1/1000,
half to even. -/
def pyRound3 (q : ℚ) : ℚ := (pyRound (q * 1000) : ℚ) / 1000

/-- Gap constant `BASE_GAP_NA` from `core/timeline.py`. -/
def BASE_GAP_NA : ℚ := 0.35

/-- Gap constant `BASE_GAP_DL` from `core/timeline.py`. -/
def BASE_GAP_DL : ℚ := 0.60

/-- Gap constant `SCENE_GAP` from `core/timeline.py`. -/
def SCENE_GAP : ℚ := 1.80

/-- Gap constant `QUESTION_BONUS` from `core/timeline.py`. -/
def QUESTION_BONUS : ℚ := 0.30

/-- Gap constant `LONG_TEXT_COEF` from `core/timeline.py`. -/
def LONG_TEXT_COEF : ℚ := 0.004

/-- Gap constant `LONG_TEXT_MAX` from `core/timeline.py`. -/
def LONG_TEXT_MAX : ℚ := 0.40

/-- Embedding of `compute_gap(text, role, is_scene_end)` from `core/timeline.py`.
`role.upper()` is embedded as `String.toUpper`, `len(text)` as `String.length`,
the truthiness test `if text:` as inequality with the empty string, and the
final `round(gap, 3)` as `pyRound3`. -/
def compute_gap (text : String) (role : String) (is_scene_end : Bool) : ℚ :=
  let roleUpper := role.toUpper
  let base := if roleUpper = "DL" ∨ roleUpper = "Q" ∨ roleUpper = "DIALOGUE"
              then BASE_GAP_DL else BASE_GAP_NA
  let bonusQ : ℚ := if text.contains '？' ∨ text.contains '?' then QUESTION_BONUS else 0
  let bonusLen : ℚ :=
    if text ≠ "" then min LONG_TEXT_MAX ((text.length : ℚ) * LONG_TEXT_COEF) else 0
  let gap := base + (bonusQ + bonusLen)
  let gap2 := if is_scene_end then max gap SCENE_GAP else gap
  pyRound3 gap2

/-
Frame timecode model (`core/timeline.py`): `seconds_to_timecode` renders
`f"{hours:02d}:{minutes:02d}:{secs:02d}:{frames:02d}"` and
`timecode_to_seconds` splits on ":" and applies `int` to each part.  Since
`%02d` renders the full decimal numeral (with sign) and Python `int`
parses it back exactly, the string layer is a bijection on the four
fields; the timecode is therefore embedded as a record of the fields.
Python `//` and `%` on ints are embedded as `Int.fdiv` / `Int.emod`.
-/

/-- Record of the four fields of an `HH:MM:SS:FF` frame timecode string. -/
structure FrameTimecode where
  hours : ℤ
  minutes : ℤ
  seconds : ℤ
  frames : ℤ
deriving DecidableEq

/-- Embedding of `seconds_to_timecode(seconds, fps)` from `core/timeline.py`:
`total_frames = int(seconds * fps)`, then the display split uses the rounded
integer frame rate `int(round(fps))` as modulus. -/
def seconds_to_timecode (seconds fps : ℚ) : FrameTimecode :=
  let totalFrames := pyInt (seconds * fps)
  let fpsRounded := pyRound fps
  let frames := totalFrames.fmod fpsRounded
  let totalSeconds := totalFrames.fdiv fpsRounded
  { hours := totalSeconds.fdiv 3600
    minutes := (totalSeconds.fmod 3600).fdiv 60
    seconds := totalSeconds.fmod 60
    frames := frames }

/-- Embedding of `timecode_to_seconds(timecode, fps)` from `core/timeline.py`
(on the field record; the source parses the four colon-separated fields first):
`hours * 3600 + minutes * 60 + seconds + frames / fps`. -/
def timecode_to_seconds (tc : FrameTimecode) (fps : ℚ) : ℚ :=
  (tc.hours : ℚ) * 3600 + (tc.minutes : ℚ) * 60 + (tc.seconds : ℚ) + (tc.frames : ℚ) / fps

/-
Largest-remainder distribution (`core/writers/srt.py`,
`_distribute_counts_by_duration`).  Python's stable `list.sort(reverse=True)`
and `sorted(range(n), key=..., reverse=True)` are embedded as insertion
sorts with a strict descending comparison: for the remainder pairs the
keys `(remainder, idx)` are pairwise distinct so stability is moot and the
order is exactly descending lexicographic; for the index sort the strict
comparison on durations keeps tied indices in original (ascending) order,
matching Python's stable sort.  The loop `for i in range(leftovers):
counts[remainders[i][1]] += 1` is embedded as a fold over
`remainders.take leftovers`; `leftovers ≤ bucket_count` always holds (see
`distribute_counts_sum`), so the `take` never truncates where Python would
have raised an IndexError.
-/

/-- Insertion step of the descending sort of `(remainder, idx)` pairs
(`remainders.sort(reverse=True)` in `_distribute_counts_by_duration`). -/
def insertPairDesc (p : ℚ × ℕ) : List (ℚ × ℕ) → List (ℚ × ℕ)
  | [] => [p]
  | q :: rest =>
    if q.1 < p.1 ∨ (p.1 = q.1 ∧ q.2 < p.2) then p :: q :: rest
    else q :: insertPairDesc p rest

/-- Embedding of `remainders.sort(reverse=True)`: stable descending sort of
distinct `(remainder, idx)` pairs. -/
def sortPairsDesc (l : List (ℚ × ℕ)) : List (ℚ × ℕ) :=
  l.foldl (fun acc p => insertPairDesc p acc) []

/-- Insertion step of the descending index sort used when there are fewer
items than buckets. -/
def insertIdxDesc (ds : List ℚ) (i : ℕ) : List ℕ → List ℕ
  | [] => [i]
  | j :: rest =>
    if ds.getD j 0 < ds.getD i 0 then i :: j :: rest
    else j :: insertIdxDesc ds i rest

/-- Embedding of `sorted(range(bucket_count), key=lambda idx: durations[idx],
reverse=True)` (stable, descending by duration). -/
def sortedIndicesDesc (ds : List ℚ) : List ℕ :=
  (List.range ds.length).foldl (fun acc i => insertIdxDesc ds i acc) []

/-- Embedding of `_distribute_counts_by_duration(total_items, durations)` from
`core/writers/srt.py`: distribute `total_items` across buckets proportionally
to duration by the largest-remainder method.  Machine floats are embedded as
exact rationals; counts are integers. -/
def _distribute_counts_by_duration (total_items : ℤ) (durations : List ℚ) : List ℤ :=
  let bucket_count := durations.length
  if bucket_count = 0 ∨ total_items ≤ 0 then List.replicate bucket_count 0
  else
    let total_duration₀ := durations.sum
    let ds := if total_duration₀ ≤ 0 then List.replicate bucket_count (1:ℚ) else durations
    let total_duration := if total_duration₀ ≤ 0 then (bucket_count : ℚ) else total_duration₀
    if (bucket_count : ℤ) ≤ total_items then
      let remaining := total_items - bucket_count
      let weights := ds.map (fun d => d / total_duration)
      let raw_extra := weights.map (fun w => w * (remaining : ℚ))
      let extra_floor := raw_extra.map (fun v => ⌊v⌋)
      let counts := List.zipWith (· + ·) (List.replicate bucket_count (1:ℤ)) extra_floor
      let assigned := counts.sum
      let leftovers := total_items - assigned
      if 0 < leftovers then
        let remainders := (List.range bucket_count).map
          (fun idx => (raw_extra.getD idx 0 - ((extra_floor.getD idx 0 : ℤ) : ℚ), idx))
        let sortedRem := sortPairsDesc remainders
        (sortedRem.take leftovers.toNat).foldl
          (fun cs p => cs.set p.2 (cs.getD p.2 0 + 1)) counts
      else counts
    else
      ((sortedIndicesDesc ds).take total_items.toNat).foldl
        (fun cs i => cs.set i (cs.getD i 0 + 1)) (List.replicate bucket_count 0)


/-
Timeline builder (`core/timeline.py`, `TimelineCalculator.calculate_timeline`).
The calculator state (`fps`, `scene_lead_in_sec`, `clip_gap_frames`,
`clip_gap_sec`) is passed explicitly; the optional `narration_segments`
argument only fills the display-only `speaker`/`text` fields and the unused
`scene_end_indices` parameter is never read by the source, so both are
omitted from the embedding.
-/

/-- Audio segment as consumed by `calculate_timeline` (index, filename and
measured duration in seconds). -/
structure AudioSegment where
  index : ℤ
  filename : String
  duration_sec : ℚ
deriving DecidableEq

/-- Embedding of the `TimelineSegment` dataclass fields used by the timeline
builder and the SRT writer. -/
structure TimelineSegment where
  index : ℤ
  audio_filename : String
  audio_duration_sec : ℚ
  start_time_sec : ℚ
  end_time_sec : ℚ
  is_scene_start : Bool
  scene_lead_in_sec : ℚ
deriving DecidableEq

/-- Embedding of `self.clip_gap_sec = clip_gap_frames / fps if fps > 0 else
0.0` from `TimelineCalculator.__init__`. -/
def clip_gap_sec (fps : ℚ) (clip_gap_frames : ℕ) : ℚ :=
  if 0 < fps then (clip_gap_frames : ℚ) / fps else 0

/-- Loop of `TimelineCalculator.calculate_timeline`: `current_time` is the
running cursor, `i` the enumeration index.  The inter-clip gap is added only
when `clip_gap_sec > 0` and the clip is not the last one. -/
def calculate_timeline_aux (scene_lead_in_sec gap : ℚ) (scene_markers : List ℕ) :
    ℚ → ℕ → List AudioSegment → List TimelineSegment
  | _, _, [] => []
  | current_time, i, audio_seg :: rest =>
    let is_scene_start := i ∈ scene_markers
    let lead_in := if i ∈ scene_markers ∧ 0 < i then scene_lead_in_sec else 0
    let start_time := current_time + lead_in
    let end_time := start_time + audio_seg.duration_sec
    let next_time := if 0 < gap ∧ rest ≠ [] then end_time + gap else end_time
    { index := audio_seg.index
      audio_filename := audio_seg.filename
      audio_duration_sec := audio_seg.duration_sec
      start_time_sec := start_time
      end_time_sec := end_time
      is_scene_start := decide is_scene_start
      scene_lead_in_sec := lead_in } ::
      calculate_timeline_aux scene_lead_in_sec gap scene_markers next_time (i + 1) rest

/-- Embedding of `TimelineCalculator.calculate_timeline`: cursor starts at 0,
enumeration at index 0. -/
def calculate_timeline (fps scene_lead_in_sec : ℚ) (clip_gap_frames : ℕ)
    (audio_segments : List AudioSegment) (scene_markers : List ℕ) : List TimelineSegment :=
  calculate_timeline_aux scene_lead_in_sec (clip_gap_sec fps clip_gap_frames)
    scene_markers 0 0 audio_segments


/-
Alignment engine of `write_timecode_srt` (`core/writers/srt.py`).  The
committed cue-to-segment assignment (`segment_to_srt` in the source, built
at lines 243-285) depends only on the cue count and the timeline segments:
phase 1 (text matching of nare lines against cue texts) contributes only
`len(nare_to_srt) = max(len(nare_lines), total_clips)` — which cancels in
`segment_count = min(total_clips, len(nare_to_srt)) = total_clips` — and the
diagnostic counter `len(used_srt)`, which only drives log messages.  Both
enter the embedding as explicit parameters `nare_count` / `used_count`.
The source loop `for seg_idx, desired in enumerate(desired_counts)` with its
`break`/`take`/leftover logic is `assignRuns`; the leftover append to
`segment_to_srt[-1]` is the `dropLast ++ [getLast ++ …]` branch of
`segment_to_srt`.
-/

/-- Embedding of `_segment_durations`: per-segment duration in seconds,
clamped at 0. -/
def _segment_durations (timeline_segments : List TimelineSegment) : List ℚ :=
  timeline_segments.map (fun segment => max 0 (segment.end_time_sec - segment.start_time_sec))

/-- Sequential cursor walk of `write_timecode_srt` assigning contiguous runs
of cue indices to segments: per segment `take = max(0, min(desired,
total_subs - cursor))`, forced to 1 while cues remain, with early `break`
(remaining segments keep empty lists) once the cursor reaches the cue count.
Returns the per-segment runs and the final cursor. -/
def assignRuns (total_subs : ℕ) : ℕ → List ℤ → List (List ℕ) × ℕ
  | cursor, [] => ([], cursor)
  | cursor, desired :: rest =>
    if total_subs ≤ cursor then (List.replicate (rest.length + 1) [], cursor)
    else
      let tk0 : ℤ := max 0 (min desired ((total_subs : ℤ) - (cursor : ℤ)))
      let tk : ℕ := if tk0 = 0 then min 1 (total_subs - cursor) else tk0.toNat
      let next := assignRuns total_subs (cursor + tk) rest
      (List.range' cursor tk :: next.1, next.2)

/-- Embedding of the committed `segment_to_srt` mapping: cursor walk plus the
append of any leftover cues to the final segment's list. -/
def segment_to_srt (total_subs : ℕ) (desired_counts : List ℤ) : List (List ℕ) :=
  let r := assignRuns total_subs 0 desired_counts
  if r.2 < total_subs ∧ r.1 ≠ [] then
    r.1.dropLast ++ [(r.1.getLast?.getD []) ++ List.range' r.2 (total_subs - r.2)]
  else r.1

/-- Committed cue assignment of `write_timecode_srt`: duration-proportional
desired counts over the first `segment_count = min(total_clips,
max(nare_count, total_clips))` segments, then the sequential walk. -/
def committed_assignment (nare_count total_subs : ℕ)
    (timeline_segments : List TimelineSegment) : List (List ℕ) :=
  let total_clips := timeline_segments.length
  let segment_count := min total_clips (max nare_count total_clips)
  let segment_durations := _segment_durations (timeline_segments.take segment_count)
  let desired_counts := _distribute_counts_by_duration (total_subs : ℤ) segment_durations
  segment_to_srt total_subs desired_counts

/-- Record of the four fields of an `HH:MM:SS,mmm` SRT timecode string as
rendered by `srt_timecode_from_seconds`. -/
structure SrtTimecode where
  hours : ℤ
  minutes : ℤ
  seconds : ℤ
  millis : ℤ
deriving DecidableEq

/-- Embedding of `srt_timecode_from_seconds(seconds)` from
`core/writers/srt.py`: millisecond truncation then field split. -/
def srt_timecode_from_seconds (seconds : ℚ) : SrtTimecode :=
  let total_ms := pyInt (seconds * 1000)
  let milliseconds := total_ms.fmod 1000
  let total_seconds := total_ms.fdiv 1000
  { hours := total_seconds.fdiv 3600
    minutes := (total_seconds.fmod 3600).fdiv 60
    seconds := total_seconds.fmod 60
    millis := milliseconds }

/-- Start/end timecodes of the cues emitted by `write_timecode_srt`, in
output order (source lines 286-321): each segment's cues subdivide the
segment span equally.  `used_count` (the phase-1 diagnostic counter) is
accepted and, as in the source, never read for timing. -/
def write_timecode_srt_times (nare_count used_count total_subs : ℕ)
    (timeline_segments : List TimelineSegment) : List (SrtTimecode × SrtTimecode) :=
  let _ := used_count
  let total_clips := timeline_segments.length
  let segment_count := min total_clips (max nare_count total_clips)
  let segment_durations := _segment_durations (timeline_segments.take segment_count)
  let desired_counts := _distribute_counts_by_duration (total_subs : ℤ) segment_durations
  let seg2srt₀ := segment_to_srt total_subs desired_counts
  let seg2srt := if seg2srt₀ = [] then List.replicate total_clips ([] : List ℕ) else seg2srt₀
  ((List.range (min seg2srt.length total_clips)).map (fun nare_idx =>
    let segment := timeline_segments.getD nare_idx ⟨0, "", 0, 0, 0, false, 0⟩
    let srt_indices := seg2srt.getD nare_idx []
    let seg_start := segment.start_time_sec
    let seg_end := segment.end_time_sec
    let seg_duration := seg_end - seg_start
    let num_subs := srt_indices.length
    if num_subs = 0 then []
    else if num_subs = 1 then
      [(srt_timecode_from_seconds seg_start, srt_timecode_from_seconds seg_end)]
    else
      (List.range num_subs).map (fun j =>
        (srt_timecode_from_seconds (seg_start + seg_duration * (j : ℚ) / (num_subs : ℚ)),
          srt_timecode_from_seconds
            (seg_start + seg_duration * ((j : ℚ) + 1) / (num_subs : ℚ)))))).flatten



/-
SRT parser (`core/parsers/srt.py`).  Python string machinery is embedded at
character level: `str.strip()` as `pyStripChars` (ASCII whitespace set of
`\s`), `int(s)` as `pyIntParse` (optional sign plus decimal digits), the
timecode regex `(\d{2}):(\d{2}):(\d{2}),(\d{3})` with `re.match` (prefix
match, trailing input allowed) as the character-level parser `readSrtTime`,
and `%02d`/`%03d` rendering as `padLeft`/`natDigits`.  `parse_srt` is
embedded from the per-block loop onward: the input is the list of blocks,
each a list of lines, as produced by the fence-stripping and
blank-line-splitting preamble.  A `Subtitle` stores the parsed timecode
fields; `Subtitle.validate` re-checks the timecode format as the field-width
bounds that the regex enforces on the rendered string.
-/
/-- Characters matched by `\s` in the source regexes and stripped by
Python `str.strip()` (ASCII subset). -/
def isPySpace (c : Char) : Bool :=
  c = ' ' ∨ c = '\t' ∨ c = '\n' ∨ c = '\r' ∨ c = '\x0b' ∨ c = '\x0c'

/-- Embedding of Python `str.strip()` on the character list. -/
def pyStripChars (cs : List Char) : List Char :=
  ((cs.dropWhile isPySpace).reverse.dropWhile isPySpace).reverse

/-- Accumulator loop reading a run of decimal digits. -/
def digitsValAux : ℕ → List Char → Option ℕ
  | acc, [] => some acc
  | acc, c :: rest =>
    if c.isDigit then digitsValAux (acc * 10 + (c.toNat - 48)) rest else none

/-- Value of a non-empty all-digit character list, `none` otherwise. -/
def digitsVal : List Char → Option ℕ
  | [] => none
  | l => digitsValAux 0 l

/-- Embedding of Python `int(s.strip())` returning `none` where Python
raises `ValueError`: optional sign followed by decimal digits. -/
def pyIntParse (s : String) : Option ℤ :=
  match pyStripChars s.data with
  | '-' :: rest => (digitsVal rest).map (fun n => -(n : ℤ))
  | '+' :: rest => (digitsVal rest).map (fun n => (n : ℤ))
  | l => (digitsVal l).map (fun n => (n : ℤ))

/-- Fields of an `HH:MM:SS,mmm` SRT timestamp as captured by the group
pattern `(\d{2}):(\d{2}):(\d{2}),(\d{3})`. -/
structure SrtTime where
  hours : ℕ
  minutes : ℕ
  seconds : ℕ
  millis : ℕ
deriving DecidableEq

/-- Millisecond value of parsed timestamp fields, as computed by
`time_to_ms` after its regex match. -/
def time_to_ms_fields (t : SrtTime) : ℕ :=
  t.hours * 3600000 + t.minutes * 60000 + t.seconds * 1000 + t.millis

/-- Read exactly `k` decimal digits (the `\d{k}` regex atom), accumulating
their value; fails on a non-digit or end of input. -/
def readDigits : ℕ → ℕ → List Char → Option (ℕ × List Char)
  | 0, acc, cs => some (acc, cs)
  | _ + 1, _, [] => none
  | k + 1, acc, c :: cs =>
    if c.isDigit then readDigits k (acc * 10 + (c.toNat - 48)) cs else none

/-- Match one literal character of the regex. -/
def expectChar (c : Char) : List Char → Option (List Char)
  | [] => none
  | x :: xs => if x = c then some xs else none

/-- Character-level embedding of the timestamp pattern
`(\d{2}):(\d{2}):(\d{2}),(\d{3})`: on success returns the fields and the
remaining input. -/
def readSrtTime (cs : List Char) : Option (SrtTime × List Char) := do
  let (h, cs) ← readDigits 2 0 cs
  let cs ← expectChar ':' cs
  let (m, cs) ← readDigits 2 0 cs
  let cs ← expectChar ':' cs
  let (s, cs) ← readDigits 2 0 cs
  let cs ← expectChar ',' cs
  let (ms, cs) ← readDigits 3 0 cs
  pure (⟨h, m, s, ms⟩, cs)

/-- Embedding of `time_to_ms(time_str)` from `core/parsers/srt.py`:
`_TIME_RE.match` (prefix match) then the field sum; `none` where Python
raises `ValueError`. -/
def time_to_ms (s : String) : Option ℕ :=
  (readSrtTime s.data).map (fun r => time_to_ms_fields r.1)

/-- Embedding of the `parse_srt` timecode-line regex
`(\d{2}:\d{2}:\d{2},\d{3})\s*-->\s*(\d{2}:\d{2}:\d{2},\d{3})` under
`re.match`. -/
def parseTimecodeLine (line : String) : Option (SrtTime × SrtTime) := do
  let (t1, cs) ← readSrtTime line.data
  let cs := cs.dropWhile isPySpace
  let cs ← expectChar '-' cs
  let cs ← expectChar '-' cs
  let cs ← expectChar '>' cs
  let cs := cs.dropWhile isPySpace
  let (t2, _) ← readSrtTime cs
  pure (t1, t2)

/-- Decimal digits of a natural number (fuel-based recursion so that the
kernel can evaluate it). -/
def natDigitsAux : ℕ → ℕ → List Char
  | 0, _ => []
  | fuel + 1, n =>
    if n < 10 then [Char.ofNat (48 + n)]
    else natDigitsAux fuel (n / 10) ++ [Char.ofNat (48 + n % 10)]

/-- Decimal numeral of `n` as characters. -/
def natDigits (n : ℕ) : List Char := natDigitsAux (n + 1) n

/-- Left zero-padding to width `w`, as done by the `%02d`/`%03d` format
specifiers. -/
def padLeft (w : ℕ) (cs : List Char) : List Char :=
  List.replicate (w - cs.length) '0' ++ cs

/-- Embedding of `ms_to_time(ms)` from `core/parsers/srt.py`: successive
divmod split then `f"{hours:02d}:{minutes:02d}:{seconds:02d},{milliseconds:03d}"`. -/
def ms_to_time (ms : ℕ) : String :=
  let hours := ms / 3600000
  let ms1 := ms % 3600000
  let minutes := ms1 / 60000
  let ms2 := ms1 % 60000
  let seconds := ms2 / 1000
  let milliseconds := ms2 % 1000
  ⟨padLeft 2 (natDigits hours) ++ ':' :: padLeft 2 (natDigits minutes) ++
    ':' :: padLeft 2 (natDigits seconds) ++ ',' :: padLeft 3 (natDigits milliseconds)⟩

/-- Embedding of `_is_valid_timecode` on parsed fields: the rendered string
matches `_TIME_RE` exactly when every field fits its digit width. -/
def is_valid_timecode (t : SrtTime) : Bool :=
  decide (t.hours < 100 ∧ t.minutes < 100 ∧ t.seconds < 100 ∧ t.millis < 1000)

/-- Embedding of the `Subtitle` dataclass, storing the parsed timestamp
fields in place of the matched strings. -/
structure Subtitle where
  index : ℤ
  start_time : SrtTime
  end_time : SrtTime
  text : String
deriving DecidableEq

/-- Embedding of `Subtitle.start_ms()`. -/
def Subtitle.start_ms (s : Subtitle) : ℕ := time_to_ms_fields s.start_time

/-- Embedding of `Subtitle.end_ms()`. -/
def Subtitle.end_ms (s : Subtitle) : ℕ := time_to_ms_fields s.end_time

/-- Embedding of `Subtitle.duration_ms()` (a Python `int`, possibly
negative). -/
def Subtitle.duration_ms (s : Subtitle) : ℤ := (s.end_ms : ℤ) - (s.start_ms : ℤ)

/-- Outcome of `Subtitle.validate`, one constructor per error message of the
source (the message text carries the shown values). -/
inductive ValidationError where
  | invalidStartFormat : SrtTime → ValidationError
  | invalidEndFormat : SrtTime → ValidationError
  | startNotBeforeEnd : SrtTime → SrtTime → ValidationError
  | durationTooShort : ℤ → ValidationError
  | durationTooLong : ℤ → ValidationError
  | emptyText : ValidationError
deriving DecidableEq

/-- Embedding of `Subtitle.validate()`: format checks, `start_ms >= end_ms`,
duration bounds `[100, 15000]` ms, then non-blank text. -/
def Subtitle.validate (s : Subtitle) : Option ValidationError :=
  if ¬ is_valid_timecode s.start_time then some (.invalidStartFormat s.start_time)
  else if ¬ is_valid_timecode s.end_time then some (.invalidEndFormat s.end_time)
  else if s.end_ms ≤ s.start_ms then some (.startNotBeforeEnd s.start_time s.end_time)
  else if s.duration_ms < 100 then some (.durationTooShort s.duration_ms)
  else if 15000 < s.duration_ms then some (.durationTooLong s.duration_ms)
  else if pyStripChars s.text.data = [] then some .emptyText
  else none

/-- Errors raised by `parse_srt`, one constructor per `ValueError` message
shape; each carries the block number it names. -/
inductive SrtParseError where
  | invalidIndex : ℕ → String → SrtParseError
  | invalidTimecode : ℕ → String → SrtParseError
  | invalidSubtitle : ℕ → ℤ → ValidationError → SrtParseError
  | noValidEntries : SrtParseError
deriving DecidableEq

/-- Embedding of `"\n".join(lines)`. -/
def joinTextLines : List String → String
  | [] => ""
  | [l] => l
  | l :: rest => l ++ "\n" ++ joinTextLines rest

/-- Per-block step of `parse_srt`: blocks with fewer than 3 lines are
skipped (`ok none`, the catch-all pattern); a non-integer ordinal line or a
malformed timecode line is a hard error naming the block; a cue failing
`Subtitle.validate` is a hard error naming block and ordinal. -/
def parseBlock (block_idx : ℕ) (lines : List String) : Except SrtParseError (Option Subtitle) :=
  match lines with
  | line0 :: line1 :: textLine :: textRest =>
    match pyIntParse line0 with
    | none => Except.error (.invalidIndex block_idx line0)
    | some idx =>
      match parseTimecodeLine line1 with
      | none => Except.error (.invalidTimecode block_idx line1)
      | some (start_time, end_time) =>
        let text := String.mk (pyStripChars (joinTextLines (textLine :: textRest)).data)
        let sub : Subtitle := ⟨idx, start_time, end_time, text⟩
        match sub.validate with
        | some err => Except.error (.invalidSubtitle block_idx idx err)
        | none => Except.ok (some sub)
  | _ => Except.ok none

/-- Block loop of `parse_srt` (`for block_idx, block in enumerate(blocks,
start=1)`), propagating the first raised error. -/
def parseBlocksAux : ℕ → List (List String) → Except SrtParseError (List Subtitle)
  | _, [] => Except.ok []
  | block_idx, block :: rest =>
    match parseBlock block_idx block with
    | Except.error e => Except.error e
    | Except.ok none => parseBlocksAux (block_idx + 1) rest
    | Except.ok (some sub) =>
      (parseBlocksAux (block_idx + 1) rest).map (fun subs => sub :: subs)

/-- Embedding of `parse_srt` from the block list onward, including the final
`No valid subtitle entries found` check. -/
def parse_srt (blocks : List (List String)) : Except SrtParseError (List Subtitle) :=
  match parseBlocksAux 1 blocks with
  | Except.error e => Except.error e
  | Except.ok [] => Except.error .noValidEntries
  | Except.ok subs => Except.ok subs


theorem pyRound_ge_floor (q : ℚ) : ⌊q⌋ ≤ pyRound q := by
  unfold pyRound
  simp only
  split
  · exact le_refl _
  · split
    · exact le_of_lt (lt_add_one _)
    · split
      · exact le_refl _
      · exact le_of_lt (lt_add_one _)

theorem pyRound3_ge (q c : ℚ) (hc : c * 1000 = (⌊c * 1000⌋ : ℚ)) (h : c ≤ q) :
    c ≤ pyRound3 q := by
  unfold pyRound3
  have h1 : (⌊c * 1000⌋ : ℤ) ≤ ⌊q * 1000⌋ := by
    apply Int.floor_le_floor
    nlinarith
  have h2 : (⌊c * 1000⌋ : ℤ) ≤ pyRound (q * 1000) :=
    le_trans h1 (pyRound_ge_floor _)
  have h3 : ((⌊c * 1000⌋ : ℤ) : ℚ) ≤ (pyRound (q * 1000) : ℚ) := by exact_mod_cast h2
  rw [← hc] at h3
  linarith

/-- Claim C8: for every text string and every role string,
`compute_gap(text, role, is_scene_end=True)` returns at least `SCENE_GAP`
(1.80 seconds): flagging a scene end raises the gap to at least the
scene-transition floor and never lowers it. -/
theorem compute_gap_scene_floor (text role : String) :
    SCENE_GAP ≤ compute_gap text role true := by
  unfold compute_gap
  simp only
  apply pyRound3_ge
  · norm_num [SCENE_GAP]
  · exact le_max_right _ _

theorem seconds_to_timecode_at_3600 :
    seconds_to_timecode 3600 (2997/100) = ⟨0, 59, 56, 12⟩ := by
  unfold seconds_to_timecode pyInt pyRound
  have h1 : ((3600 : ℚ) * (2997/100)) = 107892 := by norm_num
  have h2 : ⌊(107892 : ℚ)⌋ = 107892 := by norm_num
  have h3 : ⌊(2997/100 : ℚ)⌋ = 29 := by
    rw [Int.floor_eq_iff] ; norm_num
  simp only [h1, h2, h3]
  norm_num
  decide

/-- Claim C3, counterexample: at `s = 3600` seconds and the NTSC rate
`r = 29.97 = 2997/100`, the round trip `timecode_to_seconds ∘
seconds_to_timecode` drifts by about 3.6 seconds, far beyond the claimed
one-frame tolerance `1/r ≈ 0.0334`: the display split divides the truncated
frame count by the *rounded* rate 30, so the error grows linearly with `s`. -/
theorem timecode_roundtrip_counterexample :
    ¬ (|timecode_to_seconds (seconds_to_timecode 3600 (2997/100)) (2997/100) - 3600|
        < 1 / (2997/100)) := by
  rw [seconds_to_timecode_at_3600]
  intro hlt
  rw [abs_lt] at hlt
  obtain ⟨hlo, _⟩ := hlt
  norm_num [timecode_to_seconds] at hlo

theorem pyRound_natCast (r : ℕ) : pyRound (r : ℚ) = r := by
  unfold pyRound
  simp [Int.floor_natCast]

/-- Claim C3 as amended: the one-frame round-trip bound
`|timecode_to_seconds (seconds_to_timecode s r) r - s| < 1/r` holds for all
seconds `s ≥ 0` when the frame rate `r` is a positive integer (so that the
display modulus `int(round(fps))` agrees with the rate used for frame
counting); for non-integer rates such as 29.97 it fails
(`timecode_roundtrip_counterexample`). -/
theorem timecode_roundtrip_integer_fps (s : ℚ) (r : ℕ) (hs : 0 ≤ s) (hr : 0 < r) :
    |timecode_to_seconds (seconds_to_timecode s (r : ℚ)) (r : ℚ) - s| < 1 / (r : ℚ) := by
  have hrZ : (0:ℤ) < (r:ℤ) := by exact_mod_cast hr
  have hrQ : (0:ℚ) < (r:ℚ) := by exact_mod_cast hr
  have hsr : 0 ≤ s * (r:ℚ) := by positivity
  have hpy : pyInt (s * (r:ℚ)) = ⌊s * (r:ℚ)⌋ := by unfold pyInt; rw [if_pos hsr]
  set tf : ℤ := ⌊s * (r:ℚ)⌋ with htf
  have htf0 : 0 ≤ tf := Int.floor_nonneg.mpr hsr
  have hstc : seconds_to_timecode s (r:ℚ) =
      ⟨(tf.fdiv r).fdiv 3600, ((tf.fdiv r).fmod 3600).fdiv 60, (tf.fdiv r).fmod 60,
        tf.fmod r⟩ := by
    unfold seconds_to_timecode
    rw [pyRound_natCast, hpy]
  rw [hstc]
  unfold timecode_to_seconds
  simp only
  rw [Int.fdiv_eq_ediv _ (le_of_lt hrZ), Int.fmod_eq_emod _ (le_of_lt hrZ)]
  rw [Int.fdiv_eq_ediv _ (by norm_num : (0:ℤ) ≤ 3600),
      Int.fmod_eq_emod _ (by norm_num : (0:ℤ) ≤ 3600),
      Int.fdiv_eq_ediv _ (by norm_num : (0:ℤ) ≤ 60),
      Int.fmod_eq_emod _ (by norm_num : (0:ℤ) ≤ 60)]
  set ts : ℤ := tf / (r:ℤ) with hts
  have hfields : (ts / 3600) * 3600 + ((ts % 3600) / 60) * 60 + ts % 60 = ts := by omega
  have hcast : ((ts / 3600 : ℤ) : ℚ) * 3600 + (((ts % 3600)/60 : ℤ) : ℚ) * 60
      + ((ts % 60 : ℤ) : ℚ) = (ts : ℚ) := by
    exact_mod_cast congrArg (Int.cast : ℤ → ℚ) hfields
  rw [hcast]
  have hsplit : ts * (r:ℤ) + tf % (r:ℤ) = tf := Int.ediv_add_emod' tf (r:ℤ)
  have hval : (ts : ℚ) + ((tf % (r:ℤ) : ℤ) : ℚ) / (r:ℚ) = (tf : ℚ) / (r:ℚ) := by
    field_simp
    exact_mod_cast congrArg (Int.cast : ℤ → ℚ) hsplit
  rw [hval]
  have hub : (tf:ℚ) ≤ s * (r:ℚ) := Int.floor_le _
  have hlb : s * (r:ℚ) - 1 < (tf:ℚ) := Int.sub_one_lt_floor _
  rw [abs_lt]
  constructor
  · have h2 : (s * (r:ℚ) - 1) / (r:ℚ) < (tf:ℚ) / (r:ℚ) := by gcongr
    have h3 : (s * (r:ℚ) - 1) / (r:ℚ) = s - 1 / (r:ℚ) := by
      field_simp
    linarith [h2, h3]
  · have h4 : (tf:ℚ) / (r:ℚ) ≤ s := (div_le_iff₀ hrQ).mpr hub
    have h5 : (0:ℚ) < 1 / (r:ℚ) := by positivity
    linarith

theorem timecode_roundtrip_integer_fps_witness :
    0 ≤ (7/2 : ℚ) ∧ 0 < 30 ∧
      |timecode_to_seconds (seconds_to_timecode (7/2) ((30:ℕ) : ℚ)) ((30:ℕ) : ℚ) - 7/2|
        < 1 / ((30:ℕ) : ℚ) :=
  ⟨by norm_num, by norm_num,
    timecode_roundtrip_integer_fps (7/2) 30 (by norm_num) (by norm_num)⟩

theorem sum_set_incr (l : List ℤ) (i : ℕ) (hi : i < l.length) :
    (l.set i (l.getD i 0 + 1)).sum = l.sum + 1 := by
  induction l generalizing i with
  | nil => simp at hi
  | cons a rest ih =>
    cases i with
    | zero => simp [List.set]; ring
    | succ j =>
      simp only [List.set, List.getD_cons_succ, List.sum_cons]
      rw [ih j (by simpa using hi)]
      ring

theorem foldl_incr_sum (idxs : List ℕ) (cs : List ℤ) (h : ∀ i ∈ idxs, i < cs.length) :
    (idxs.foldl (fun cs i => cs.set i (cs.getD i 0 + 1)) cs).sum = cs.sum + idxs.length := by
  induction idxs generalizing cs with
  | nil => simp
  | cons a rest ih =>
    simp only [List.foldl_cons, List.length_cons]
    rw [ih _ (fun i hi => by
      rw [List.length_set]
      exact h i (List.mem_cons_of_mem _ hi))]
    rw [sum_set_incr cs a (h a (List.mem_cons_self _ _))]
    push_cast
    ring

theorem foldl_incr_length (idxs : List ℕ) (cs : List ℤ) :
    (idxs.foldl (fun cs i => cs.set i (cs.getD i 0 + 1)) cs).length = cs.length := by
  induction idxs generalizing cs with
  | nil => simp
  | cons a rest ih => rw [List.foldl_cons, ih, List.length_set]

theorem insertPairDesc_perm (p : ℚ × ℕ) (l : List (ℚ × ℕ)) :
    (insertPairDesc p l).Perm (p :: l) := by
  induction l with
  | nil => simp [insertPairDesc]
  | cons q rest ih =>
    rw [insertPairDesc]
    split
    · exact List.Perm.refl _
    · exact (List.Perm.cons q ih).trans (List.Perm.swap p q rest)

theorem sortPairsDesc_perm (l : List (ℚ × ℕ)) : (sortPairsDesc l).Perm l := by
  suffices h : ∀ acc : List (ℚ × ℕ),
      (l.foldl (fun acc p => insertPairDesc p acc) acc).Perm (l ++ acc) by
    simpa using h []
  induction l with
  | nil => simp
  | cons a rest ih =>
    intro acc
    simp only [List.foldl_cons, List.cons_append]
    exact ((ih _).trans (List.Perm.append_left rest (insertPairDesc_perm a acc))).trans
      List.perm_middle

theorem insertIdxDesc_perm (ds : List ℚ) (i : ℕ) (l : List ℕ) :
    (insertIdxDesc ds i l).Perm (i :: l) := by
  induction l with
  | nil => simp [insertIdxDesc]
  | cons j rest ih =>
    rw [insertIdxDesc]
    split
    · exact List.Perm.refl _
    · exact (List.Perm.cons j ih).trans (List.Perm.swap i j rest)

theorem sortedIndicesDesc_perm (ds : List ℚ) :
    (sortedIndicesDesc ds).Perm (List.range ds.length) := by
  unfold sortedIndicesDesc
  suffices h : ∀ (l : List ℕ) (acc : List ℕ),
      (l.foldl (fun acc i => insertIdxDesc ds i acc) acc).Perm (l ++ acc) by
    simpa using h (List.range ds.length) []
  intro l
  induction l with
  | nil => simp
  | cons a rest ih =>
    intro acc
    simp only [List.foldl_cons, List.cons_append]
    exact ((ih _).trans (List.Perm.append_left rest (insertIdxDesc_perm ds a acc))).trans
      List.perm_middle

theorem sum_floor_bounds (l : List ℚ) :
    l.sum - l.length ≤ (((l.map fun q => ⌊q⌋).sum : ℤ) : ℚ) ∧
      (((l.map fun q => ⌊q⌋).sum : ℤ) : ℚ) ≤ l.sum := by
  induction l with
  | nil => simp
  | cons a rest ih =>
    obtain ⟨ih1, ih2⟩ := ih
    have h1 := Int.lt_floor_add_one a
    have h2 := Int.floor_le a
    simp only [List.map_cons, List.sum_cons, List.length_cons, Int.cast_add,
      Nat.cast_add, Nat.cast_one]
    constructor <;> linarith

theorem sum_div_mul (l : List ℚ) (total rem : ℚ) :
    ((l.map fun d => d / total).map fun w => w * rem).sum = l.sum * rem / total := by
  rw [List.map_map]
  induction l with
  | nil => simp
  | cons a rest ih =>
    simp only [List.map_cons, List.sum_cons, Function.comp]
    rw [ih]
    ring

theorem zip_ones_sum (l : List ℤ) :
    (List.zipWith (· + ·) (List.replicate l.length (1:ℤ)) l).sum = l.length + l.sum := by
  induction l with
  | nil => simp
  | cons a rest ih =>
    simp only [List.length_cons, List.replicate_succ, List.zipWith_cons_cons, List.sum_cons, ih]
    push_cast
    ring

theorem zip_ones_length (l : List ℤ) :
    (List.zipWith (· + ·) (List.replicate l.length (1:ℤ)) l).length = l.length := by
  simp

theorem foldl_incr_pairs_sum (pairs : List (ℚ × ℕ)) (cs : List ℤ)
    (h : ∀ p ∈ pairs, p.2 < cs.length) :
    (pairs.foldl (fun cs p => cs.set p.2 (cs.getD p.2 0 + 1)) cs).sum
      = cs.sum + pairs.length := by
  induction pairs generalizing cs with
  | nil => simp
  | cons a rest ih =>
    simp only [List.foldl_cons, List.length_cons]
    rw [ih _ (fun p hp => by
      rw [List.length_set]
      exact h p (List.mem_cons_of_mem _ hp))]
    rw [sum_set_incr cs a.2 (h a (List.mem_cons_self _ _))]
    push_cast
    ring

/-- Claim C5: for every non-empty duration list and every `total_items ≥ 0`,
the counts returned by `_distribute_counts_by_duration` sum exactly to
`total_items`. -/
theorem distribute_counts_sum (durations : List ℚ) (total_items : ℤ)
    (hne : durations ≠ []) (ht : 0 ≤ total_items) :
    (_distribute_counts_by_duration total_items durations).sum = total_items := by
  unfold _distribute_counts_by_duration
  simp only
  set n := durations.length with hn
  have hn0 : n ≠ 0 := by
    rw [hn]
    have := List.length_pos.mpr hne
    omega
  set ds := (if durations.sum ≤ 0 then List.replicate n (1:ℚ) else durations) with hds
  set total := (if durations.sum ≤ 0 then (n:ℚ) else durations.sum) with htotal
  have hds_len : ds.length = n := by
    rw [hds]
    split
    · simp
    · exact hn.symm
  have hds_sum : ds.sum = total := by
    rw [hds, htotal]
    split
    · simp [List.sum_replicate]
    · rfl
  have htot_pos : 0 < total := by
    rw [htotal]
    split
    · exact_mod_cast Nat.pos_of_ne_zero hn0
    · linarith [not_le.mp (by assumption : ¬ durations.sum ≤ 0)]
  set raw := List.map (fun w => w * ((total_items - (n:ℤ) : ℤ) : ℚ))
    (List.map (fun d => d / total) ds) with hraw
  have hraw_len : raw.length = n := by simp [hraw, hds_len]
  have hraw_sum : raw.sum = ((total_items - (n:ℤ) : ℤ) : ℚ) := by
    rw [hraw, sum_div_mul, hds_sum, mul_comm, mul_div_assoc, div_self (ne_of_gt htot_pos),
      mul_one]
  set floors := List.map (fun v => ⌊v⌋) raw with hfloors
  have hfloors_len : floors.length = n := by simp [hfloors, hraw_len]
  have hfb := sum_floor_bounds raw
  rw [← hfloors] at hfb
  obtain ⟨hfb1, hfb2⟩ := hfb
  set counts := List.zipWith (fun x1 x2 => x1 + x2) (List.replicate n (1:ℤ)) floors
    with hcounts
  have hcounts_len : counts.length = n := by
    rw [hcounts]
    simp [hfloors_len]
  have hcounts_sum : counts.sum = (n : ℤ) + floors.sum := by
    have he : counts = List.zipWith (fun x1 x2 => x1 + x2)
        (List.replicate floors.length (1:ℤ)) floors := by
      rw [hcounts, hfloors_len]
    rw [he, zip_ones_sum floors, hfloors_len]
  split
  · -- degenerate branch: n = 0 or total_items ≤ 0
    rename_i hcase
    have htz : total_items = 0 := by
      rcases hcase with h1 | h1
      · exact absurd h1 hn0
      · omega
    simp [List.sum_replicate, htz]
  · rename_i hcase
    push_neg at hcase
    split
    · -- main branch : n ≤ total_items
      rename_i hge
      -- bounds on the floor sum
      have hfsum_ub : floors.sum ≤ total_items - (n:ℤ) := by
        have : ((floors.sum : ℤ) : ℚ) ≤ ((total_items - (n:ℤ) : ℤ) : ℚ) := by
          rw [← hraw_sum]
          exact hfb2
        exact_mod_cast this
      have hfsum_lb : (total_items - (n:ℤ)) - (n:ℤ) ≤ floors.sum := by
        have h1 : raw.sum - (raw.length:ℚ) ≤ ((floors.sum : ℤ) : ℚ) := hfb1
        rw [hraw_sum, hraw_len] at h1
        exact_mod_cast h1
      split
      · -- leftovers > 0
        rename_i hlf
        set sortedRem := sortPairsDesc (List.map
          (fun idx => (raw.getD idx 0 - ((floors.getD idx 0 : ℤ) : ℚ), idx))
          (List.range n)) with hsr
        have hsr_len : sortedRem.length = n := by
          rw [hsr, List.Perm.length_eq (sortPairsDesc_perm _)]
          simp
        have hmem : ∀ p ∈ List.take (total_items - counts.sum).toNat sortedRem,
            p.2 < counts.length := by
          intro p hp
          have hp2 : p ∈ sortedRem := List.mem_of_mem_take hp
          rw [hsr] at hp2
          have hp3 := (sortPairsDesc_perm _).mem_iff.mp hp2
          obtain ⟨idx, hidx, hpe⟩ := List.mem_map.mp hp3
          rw [hcounts_len, ← hpe]
          exact List.mem_range.mp hidx
        rw [foldl_incr_pairs_sum _ _ hmem]
        rw [List.length_take, hsr_len]
        have hk : (total_items - counts.sum).toNat ≤ n := by
          omega
        rw [min_eq_left hk]
        omega
      · rename_i hlf
        omega
    · -- fewer items than buckets
      rename_i hlt
      have hmem : ∀ i ∈ List.take total_items.toNat (sortedIndicesDesc ds),
          i < (List.replicate n (0:ℤ)).length := by
        intro i hi
        have hi2 := (sortedIndicesDesc_perm ds).mem_iff.mp (List.mem_of_mem_take hi)
        rw [List.length_replicate, ← hds_len]
        exact List.mem_range.mp hi2
      rw [foldl_incr_sum _ _ hmem]
      rw [List.length_take, List.Perm.length_eq (sortedIndicesDesc_perm ds), List.length_range,
        hds_len]
      have hlt2 : total_items.toNat ≤ n := by omega
      rw [min_eq_left hlt2]
      simp [List.sum_replicate]
      omega

/-- Claim C4, counterexample: distributing 10 items over durations [2, 2, 6]
does not give [2, 2, 6].  The largest-remainder step floors the weighted
shares 7·[0.2, 0.2, 0.6] = [1.4, 1.4, 4.2] to [1, 1, 4]; the single leftover
unit goes to the largest fractional remainder 0.4 (tie between buckets 0 and
1, broken toward the higher index by the descending tuple sort), not to
bucket 2 whose remainder is only 0.2. -/
theorem distribute_scenario_counterexample :
    ¬ (_distribute_counts_by_duration 10 [2, 2, 6] = [2, 2, 6]) := by
  have h : _distribute_counts_by_duration 10 [2, 2, 6] = [2, 3, 5] := by
    norm_num [_distribute_counts_by_duration, sortPairsDesc, insertPairDesc,
      List.foldl, List.zipWith, List.replicate, List.set]
  rw [h]
  decide

/-- Claim C4 as amended: distributing total_items = 10 over 3 buckets with
durations [2, 2, 6] by `_distribute_counts_by_duration` returns [2, 3, 5]
(sum 10): baseline [1, 1, 1] plus floors [1, 1, 4] of the weighted shares of
the remaining 7, plus one leftover unit for the largest fractional remainder,
which is the 0.4 of bucket 1 (ties broken toward the higher bucket index). -/
theorem distribute_scenario_amended :
    _distribute_counts_by_duration 10 [2, 2, 6] = [2, 3, 5] := by
  norm_num [_distribute_counts_by_duration, sortPairsDesc, insertPairDesc,
    List.foldl, List.zipWith, List.replicate, List.set]

theorem distribute_counts_sum_witness :
    ([2, 2, 6] : List ℚ) ≠ [] ∧ 0 ≤ (10:ℤ) ∧
      (_distribute_counts_by_duration 10 [2, 2, 6]).sum = 10 :=
  ⟨by simp, by norm_num, distribute_counts_sum [2, 2, 6] 10 (by simp) (by norm_num)⟩

/-- Chain invariant of the timeline loop, for any cursor and start index:
adjacent segments satisfy strict start ordering, non-overlap, and touch
exactly when both the configured clip gap and the applied lead-in are zero. -/
theorem calculate_timeline_aux_chain (lead gap : ℚ) (markers : List ℕ)
    (hlead : 0 ≤ lead) (hgap : 0 ≤ gap) :
    ∀ (segs : List AudioSegment) (t : ℚ) (i : ℕ),
      (∀ a ∈ segs, 0 < a.duration_sec) →
      List.Chain' (fun a b =>
          a.start_time_sec < b.start_time_sec ∧
          a.end_time_sec ≤ b.start_time_sec ∧
          (a.end_time_sec = b.start_time_sec ↔ gap = 0 ∧ b.scene_lead_in_sec = 0))
        (calculate_timeline_aux lead gap markers t i segs) := by
  intro segs
  induction segs with
  | nil => intro t i _; simp [calculate_timeline_aux]
  | cons a rest ih =>
    intro t i hpos
    cases rest with
    | nil => simp [calculate_timeline_aux]
    | cons b rest2 =>
      have hda : 0 < a.duration_sec := hpos a (List.mem_cons_self _ _)
      have hL1 : (0:ℚ) ≤ (if i ∈ markers ∧ 0 < i then lead else 0) := by
        split <;> simp [hlead]
      have hL2 : (0:ℚ) ≤ (if i + 1 ∈ markers ∧ 0 < i + 1 then lead else 0) := by
        split <;> simp [hlead]
      rw [calculate_timeline_aux, calculate_timeline_aux, List.chain'_cons]
      constructor
      · simp only [List.cons_ne_nil, ne_eq, not_false_eq_true, and_true]
        by_cases hg : 0 < gap
        · simp only [if_pos hg]
          refine ⟨by linarith, by linarith, ?_⟩
          constructor
          · intro h
            exfalso
            linarith
          · rintro ⟨hg0, -⟩
            exact absurd hg0 (ne_of_gt hg)
        · have hg0 : gap = 0 := le_antisymm (not_lt.mp hg) hgap
          simp only [if_neg hg]
          refine ⟨by linarith, by linarith, ?_⟩
          constructor
          · intro h
            exact ⟨hg0, by linarith⟩
          · rintro ⟨-, hz⟩
            rw [hz]
            ring
      · have h2 := ih ((if 0 < gap ∧ b :: rest2 ≠ [] then
              (t + if i ∈ markers ∧ 0 < i then lead else 0) + a.duration_sec + gap
            else (t + if i ∈ markers ∧ 0 < i then lead else 0) + a.duration_sec)) (i + 1)
          (fun x hx => hpos x (List.mem_cons_of_mem _ hx))
        rw [calculate_timeline_aux] at h2
        exact h2

/-- Claim C6: for every timeline built by `calculate_timeline` from a
non-empty audio list with positive durations, non-negative scene lead-in and
non-negative clip gap (any frame count at positive fps), adjacent segments
come out in strictly increasing start order with
`segment[i].end_time_sec ≤ segment[i+1].start_time_sec`, with equality
exactly when no clip gap is configured and no lead-in was applied to the
later segment. -/
theorem calculate_timeline_nonoverlap (fps scene_lead_in : ℚ) (clip_gap_frames : ℕ)
    (audio_segments : List AudioSegment) (scene_markers : List ℕ)
    (hfps : 0 < fps) (hlead : 0 ≤ scene_lead_in)
    (hpos : ∀ a ∈ audio_segments, 0 < a.duration_sec) (_hne : audio_segments ≠ []) :
    List.Chain' (fun a b =>
        a.start_time_sec < b.start_time_sec ∧
        a.end_time_sec ≤ b.start_time_sec ∧
        (a.end_time_sec = b.start_time_sec ↔
          clip_gap_sec fps clip_gap_frames = 0 ∧ b.scene_lead_in_sec = 0))
      (calculate_timeline fps scene_lead_in clip_gap_frames audio_segments scene_markers) := by
  have hgap : 0 ≤ clip_gap_sec fps clip_gap_frames := by
    unfold clip_gap_sec
    split <;> positivity
  exact calculate_timeline_aux_chain scene_lead_in _ scene_markers hlead hgap
    audio_segments 0 0 hpos

theorem calculate_timeline_nonoverlap_witness :
    (0:ℚ) < 2997/100 ∧ (0:ℚ) ≤ 3 ∧
      (∀ a ∈ [(⟨1, "test_001.mp3", 5⟩ : AudioSegment), ⟨2, "test_002.mp3", 15/2⟩],
        0 < a.duration_sec) ∧
      [(⟨1, "test_001.mp3", 5⟩ : AudioSegment), ⟨2, "test_002.mp3", 15/2⟩] ≠ [] ∧
      List.Chain' (fun a b =>
          a.start_time_sec < b.start_time_sec ∧
          a.end_time_sec ≤ b.start_time_sec ∧
          (a.end_time_sec = b.start_time_sec ↔
            clip_gap_sec (2997/100) 0 = 0 ∧ b.scene_lead_in_sec = 0))
        (calculate_timeline (2997/100) 3 0
          [⟨1, "test_001.mp3", 5⟩, ⟨2, "test_002.mp3", 15/2⟩] [2]) := by
  have hpos : ∀ a ∈ [(⟨1, "test_001.mp3", 5⟩ : AudioSegment), ⟨2, "test_002.mp3", 15/2⟩],
      0 < a.duration_sec := by
    intro a ha
    rcases List.mem_cons.mp ha with h | h
    · rw [h]; norm_num
    · rcases List.mem_cons.mp h with h2 | h2
      · rw [h2]; norm_num
      · simp at h2
  exact ⟨by norm_num, by norm_num, hpos, by simp,
    calculate_timeline_nonoverlap (2997/100) 3 0 _ [2] (by norm_num) (by norm_num)
      hpos (by simp)⟩

/-- Claim C7: the first segment placed by `calculate_timeline` always starts
at time 0 with applied lead-in 0 (even if index 0 is in the scene-marker set,
since the lead-in requires `i > 0`); and concretely, four clips of durations
[5.0, 7.5, 4.2, 6.3] s with a scene marker at index 2, lead-in 3.0 s and zero
clip gap yield start times [0.0, 5.0, 15.5, 19.7] with segment 3 spanning
[19.7, 26.0]. -/
theorem calculate_timeline_first_and_scenario :
    (∀ (fps lead : ℚ) (frames : ℕ) (a : AudioSegment) (rest : List AudioSegment)
        (markers : List ℕ) (s : TimelineSegment),
        (calculate_timeline fps lead frames (a :: rest) markers).head? = some s →
        s.start_time_sec = 0 ∧ s.scene_lead_in_sec = 0) ∧
    ((calculate_timeline (2997/100) 3 0
        [⟨1, "test_001.mp3", 5⟩, ⟨2, "test_002.mp3", 15/2⟩,
          ⟨3, "test_003.mp3", 21/5⟩, ⟨4, "test_004.mp3", 63/10⟩] [2]).map
        (fun s => (s.start_time_sec, s.end_time_sec)) =
      [(0, 5), (5, 25/2), (31/2, 197/10), (197/10, 26)]) := by
  constructor
  · intro fps lead frames a rest markers s hs
    rw [calculate_timeline, calculate_timeline_aux] at hs
    simp only [List.head?_cons, Option.some_inj] at hs
    subst hs
    norm_num
  · norm_num [calculate_timeline, calculate_timeline_aux, clip_gap_sec, List.map]

theorem calculate_timeline_first_and_scenario_witness :
    (calculate_timeline 30 3 0 [⟨1, "a.mp3", 1⟩] [0]).head? =
        some ⟨1, "a.mp3", 1, 0, 1, true, 0⟩ ∧
      ((⟨1, "a.mp3", 1, 0, 1, true, 0⟩ : TimelineSegment).start_time_sec = 0 ∧
        (⟨1, "a.mp3", 1, 0, 1, true, 0⟩ : TimelineSegment).scene_lead_in_sec = 0) := by
  have heval : (calculate_timeline 30 3 0 [⟨1, "a.mp3", 1⟩] [0]).head? =
      some ⟨1, "a.mp3", 1, 0, 1, true, 0⟩ := by
    norm_num [calculate_timeline, calculate_timeline_aux, clip_gap_sec]
  exact ⟨heval,
    calculate_timeline_first_and_scenario.1 30 3 0 ⟨1, "a.mp3", 1⟩ [] [0]
      ⟨1, "a.mp3", 1, 0, 1, true, 0⟩ heval⟩

theorem assignRuns_spec (total_subs : ℕ) :
    ∀ (ds : List ℤ) (c : ℕ), c ≤ total_subs →
      ((assignRuns total_subs c ds).1.flatten
          = List.range' c ((assignRuns total_subs c ds).2 - c)) ∧
        c ≤ (assignRuns total_subs c ds).2 ∧
        (assignRuns total_subs c ds).2 ≤ total_subs ∧
        (assignRuns total_subs c ds).1.length = ds.length := by
  intro ds
  induction ds with
  | nil => intro c hc; simp [assignRuns, hc]
  | cons d rest ih =>
    intro c hc
    rw [assignRuns]
    by_cases hstop : total_subs ≤ c
    · rw [if_pos hstop]
      have hceq : c = total_subs := le_antisymm hc hstop
      refine ⟨?_, le_refl c, le_of_eq hceq, by simp⟩
      simp [List.flatten_replicate_nil]
    · rw [if_neg hstop]
      simp only
      set tk0 : ℤ := max 0 (min d ((total_subs : ℤ) - (c : ℤ))) with htk0
      set tk : ℕ := if tk0 = 0 then min 1 (total_subs - c) else tk0.toNat with htk
      have hclt : c < total_subs := not_le.mp hstop
      have htk_le : c + tk ≤ total_subs := by
        rw [htk]
        split
        · omega
        · have h1 : tk0 ≤ (total_subs : ℤ) - (c : ℤ) := le_trans (max_le (by omega) (min_le_right _ _)) (le_refl _)
          omega
      obtain ⟨hjoin, hle, hub, hlen⟩ := ih (c + tk) htk_le
      refine ⟨?_, by omega, hub, by simp [hlen]⟩
      simp only [List.flatten_cons, hjoin]
      rw [List.range'_append_1]
      congr 1
      omega

theorem flatten_set_last (l : List (List ℕ)) (x : List ℕ) (hl : l ≠ []) :
    (l.dropLast ++ [(l.getLast?.getD []) ++ x]).flatten = l.flatten ++ x := by
  induction l with
  | nil => simp at hl
  | cons a rest ih =>
    cases rest with
    | nil => simp
    | cons b rest2 =>
      have h2 : (a :: b :: rest2).dropLast = a :: (b :: rest2).dropLast := rfl
      rw [h2, List.getLast?_cons_cons, List.cons_append, List.flatten_cons,
        ih (by simp)]
      simp [List.append_assoc]

theorem foldl_incr_pairs_length (pairs : List (ℚ × ℕ)) (cs : List ℤ) :
    (pairs.foldl (fun cs p => cs.set p.2 (cs.getD p.2 0 + 1)) cs).length = cs.length := by
  induction pairs generalizing cs with
  | nil => simp
  | cons a rest ih => rw [List.foldl_cons, ih, List.length_set]

theorem distribute_length (t : ℤ) (ds : List ℚ) :
    (_distribute_counts_by_duration t ds).length = ds.length := by
  unfold _distribute_counts_by_duration
  simp only
  split
  · simp
  · split
    · split <;> split <;>
        first
          | (rw [foldl_incr_pairs_length]
             simp [List.length_zipWith, min_self])
          | simp [List.length_zipWith, min_self]
    · rw [foldl_incr_length]
      simp

theorem segment_to_srt_spec (total_subs : ℕ) (ds : List ℤ) (hne : ds ≠ []) :
    (segment_to_srt total_subs ds).flatten = List.range total_subs ∧
      (segment_to_srt total_subs ds).length = ds.length := by
  obtain ⟨hjoin, hle, hub, hlen⟩ := assignRuns_spec total_subs ds 0 (Nat.zero_le _)
  have hne1 : (assignRuns total_subs 0 ds).1 ≠ [] := by
    intro h
    rw [h] at hlen
    exact hne (List.eq_nil_of_length_eq_zero hlen.symm)
  unfold segment_to_srt
  simp only
  split
  · rename_i hcond
    constructor
    · rw [flatten_set_last _ _ hne1, hjoin, Nat.sub_zero]
      have := List.range'_append_1 0 (assignRuns total_subs 0 ds).2
        (total_subs - (assignRuns total_subs 0 ds).2)
      rw [Nat.zero_add] at this
      rw [this, List.range_eq_range']
      congr 1
      omega
    · rw [List.length_append, List.length_dropLast, hlen]
      simp only [List.length_singleton]
      have : 0 < ds.length := List.length_pos.mpr hne
      omega
  · rename_i hcond
    have h2 : (assignRuns total_subs 0 ds).2 = total_subs := by
      rcases not_and_or.mp hcond with h | h
      · omega
      · exact absurd hne1 (by simpa using h)
    refine ⟨?_, hlen⟩
    rw [hjoin, Nat.sub_zero, h2, List.range_eq_range']

/-- Claim C1: for every non-empty cue list and non-empty segment list, the
committed assignment of `write_timecode_srt` covers every cue index exactly
once: the concatenation of the per-segment runs (leftovers appended to the
final segment) is exactly `[0, ..., total_subs - 1]` in order, and there is
one run list per timeline segment. -/
theorem write_timecode_srt_full_coverage (nare_count total_subs : ℕ)
    (timeline_segments : List TimelineSegment)
    (_hsubs : 0 < total_subs) (hsegs : timeline_segments ≠ []) :
    (committed_assignment nare_count total_subs timeline_segments).flatten
        = List.range total_subs ∧
      (committed_assignment nare_count total_subs timeline_segments).length
        = timeline_segments.length := by
  unfold committed_assignment
  simp only
  rw [Nat.min_eq_left (Nat.le_max_right _ _), List.take_length]
  have hdlen : (_distribute_counts_by_duration (total_subs : ℤ)
      (_segment_durations timeline_segments)).length = timeline_segments.length := by
    rw [distribute_length]
    simp [_segment_durations]
  have hdne : _distribute_counts_by_duration (total_subs : ℤ)
      (_segment_durations timeline_segments) ≠ [] := by
    intro h
    rw [h] at hdlen
    exact hsegs (List.eq_nil_of_length_eq_zero hdlen.symm)
  obtain ⟨h1, h2⟩ := segment_to_srt_spec total_subs _ hdne
  exact ⟨h1, by rw [h2, hdlen]⟩

theorem write_timecode_srt_full_coverage_witness :
    0 < 3 ∧ ([(⟨1, "a", 2, 0, 2, false, 0⟩ : TimelineSegment)] ≠ []) ∧
      ((committed_assignment 0 3 [⟨1, "a", 2, 0, 2, false, 0⟩]).flatten = List.range 3 ∧
        (committed_assignment 0 3 [⟨1, "a", 2, 0, 2, false, 0⟩]).length = 1) :=
  ⟨by norm_num, by simp,
    write_timecode_srt_full_coverage 0 3 _ (by norm_num) (by simp)⟩

/-- Claim C2: the start/end timecodes of the emitted cues depend only on the
cue count and the segment start/end times.  Cue texts and narration texts
enter `write_timecode_srt` only through the phase-1 artifacts — the nare
line count and the matched-cue counter — and through fields of the segments
other than start/end; the theorem quantifies over all of these on both
sides, so the phase-1 text-matching result never alters any assigned time. -/
theorem write_timecode_srt_times_no_text_dependence
    (total_subs nare_count nare_count' used_count used_count' : ℕ)
    (segs segs' : List TimelineSegment)
    (htimes : segs.map (fun s => (s.start_time_sec, s.end_time_sec))
      = segs'.map (fun s => (s.start_time_sec, s.end_time_sec))) :
    write_timecode_srt_times nare_count used_count total_subs segs
      = write_timecode_srt_times nare_count' used_count' total_subs segs' := by
  have hlen : segs.length = segs'.length := by
    have := congrArg List.length htimes
    simpa using this
  have hdur : _segment_durations segs = _segment_durations segs' := by
    unfold _segment_durations
    have h1 : ∀ (l : List TimelineSegment),
        l.map (fun s => max 0 (s.end_time_sec - s.start_time_sec))
          = (l.map (fun s => (s.start_time_sec, s.end_time_sec))).map
              (fun p => max 0 (p.2 - p.1)) := by
      intro l
      rw [List.map_map]
      rfl
    rw [h1, h1, htimes]
  have hproj : ∀ i : ℕ, i < segs.length →
      (segs.getD i ⟨0, "", 0, 0, 0, false, 0⟩).start_time_sec
          = (segs'.getD i ⟨0, "", 0, 0, 0, false, 0⟩).start_time_sec ∧
        (segs.getD i ⟨0, "", 0, 0, 0, false, 0⟩).end_time_sec
          = (segs'.getD i ⟨0, "", 0, 0, 0, false, 0⟩).end_time_sec := by
    intro i hi
    have h1 : ((segs.map (fun s => (s.start_time_sec, s.end_time_sec))).getD i (0, 0))
        = ((segs'.map (fun s => (s.start_time_sec, s.end_time_sec))).getD i (0, 0)) := by
      rw [htimes]
    have h2 := List.getD_map (l := segs) (d := ⟨0, "", 0, 0, 0, false, 0⟩)
      (n := i) (fun s => (s.start_time_sec, s.end_time_sec))
    have h3 := List.getD_map (l := segs') (d := ⟨0, "", 0, 0, 0, false, 0⟩)
      (n := i) (fun s => (s.start_time_sec, s.end_time_sec))
    rw [h2, h3] at h1
    exact ⟨congrArg Prod.fst h1, congrArg Prod.snd h1⟩
  unfold write_timecode_srt_times
  simp only [Nat.min_eq_left (Nat.le_max_right _ _), List.take_length]
  rw [← hlen, hdur]
  apply congrArg
  apply List.map_congr_left
  intro i hi
  have hi2 : i < segs.length := lt_of_lt_of_le (List.mem_range.mp hi) (min_le_right _ _)
  obtain ⟨hs, he⟩ := hproj i hi2
  simp only [hs, he]

theorem write_timecode_srt_times_no_text_dependence_witness :
    ([(⟨1, "a.mp3", 2, 0, 2, false, 0⟩ : TimelineSegment)].map
        (fun s => (s.start_time_sec, s.end_time_sec))
      = [(⟨9, "b.mp3", 5, 0, 2, true, 1⟩ : TimelineSegment)].map
        (fun s => (s.start_time_sec, s.end_time_sec))) ∧
      write_timecode_srt_times 0 0 3 [⟨1, "a.mp3", 2, 0, 2, false, 0⟩]
        = write_timecode_srt_times 7 5 3 [⟨9, "b.mp3", 5, 0, 2, true, 1⟩] := by
  have h : [(⟨1, "a.mp3", 2, 0, 2, false, 0⟩ : TimelineSegment)].map
        (fun s => (s.start_time_sec, s.end_time_sec))
      = [(⟨9, "b.mp3", 5, 0, 2, true, 1⟩ : TimelineSegment)].map
        (fun s => (s.start_time_sec, s.end_time_sec)) := by simp
  exact ⟨h, write_timecode_srt_times_no_text_dependence 3 0 7 0 5 _ _ h⟩

/- Parse-side lemmas -/

theorem isDigit_toNat_lt (c : Char) (h : c.isDigit = true) : c.toNat - 48 < 10 := by
  simp [Char.isDigit] at h
  obtain ⟨h1, h2⟩ := h
  rw [UInt32.le_def, BitVec.le_def] at h2
  have h3 : c.toNat ≤ 57 := h2
  omega

theorem ofNat_digit_isDigit (d : ℕ) (h : d < 10) : (Char.ofNat (48 + d)).isDigit = true := by
  interval_cases d <;> decide

theorem ofNat_digit_toNat (d : ℕ) (h : d < 10) : (Char.ofNat (48 + d)).toNat = 48 + d := by
  interval_cases d <;> decide

theorem readDigits_succ_digit (k acc : ℕ) (c : Char) (cs : List Char)
    (h : c.isDigit = true) :
    readDigits (k + 1) acc (c :: cs) = readDigits k (acc * 10 + (c.toNat - 48)) cs := by
  rw [readDigits, if_pos h]

theorem natDigits_one (n : ℕ) (h : n < 10) : natDigits n = [Char.ofNat (48 + n)] := by
  rw [natDigits, natDigitsAux, if_pos h]

theorem natDigitsAux_one (fuel n : ℕ) (hf : 0 < fuel) (h : n < 10) :
    natDigitsAux fuel n = [Char.ofNat (48 + n)] := by
  obtain ⟨m, rfl⟩ : ∃ m, fuel = m + 1 := ⟨fuel - 1, by omega⟩
  rw [natDigitsAux, if_pos h]

theorem natDigits_two (n : ℕ) (h1 : 10 ≤ n) (h2 : n < 100) :
    natDigits n = [Char.ofNat (48 + n / 10), Char.ofNat (48 + n % 10)] := by
  rw [natDigits, natDigitsAux, if_neg (by omega)]
  rw [natDigitsAux_one n (n / 10) (by omega) (by omega)]
  rfl

theorem natDigits_three (n : ℕ) (h1 : 100 ≤ n) (h2 : n < 1000) :
    natDigits n = [Char.ofNat (48 + n / 100), Char.ofNat (48 + n / 10 % 10),
      Char.ofNat (48 + n % 10)] := by
  rw [natDigits, natDigitsAux, if_neg (by omega)]
  obtain ⟨m, hm⟩ : ∃ m, n = m + 1 := ⟨n - 1, by omega⟩
  rw [hm]
  rw [natDigitsAux, if_neg (by omega)]
  rw [natDigitsAux_one m ((m + 1) / 10 / 10) (by omega) (by omega)]
  rw [← hm]
  have hdd : n / 10 / 10 = n / 100 := by omega
  rw [hdd]
  simp

theorem pad2_eq (n : ℕ) (h : n < 100) :
    padLeft 2 (natDigits n) = [Char.ofNat (48 + n / 10), Char.ofNat (48 + n % 10)] := by
  by_cases h1 : n < 10
  · rw [natDigits_one n h1, padLeft]
    have hd : n / 10 = 0 := by omega
    have hm : n % 10 = n := by omega
    have hc : Char.ofNat (48 + 0) = '0' := by decide
    rw [hd, hm, hc]
    simp [List.replicate]
  · rw [natDigits_two n (by omega) h, padLeft]
    simp

theorem pad3_eq (n : ℕ) (h : n < 1000) :
    padLeft 3 (natDigits n) = [Char.ofNat (48 + n / 100), Char.ofNat (48 + n / 10 % 10),
      Char.ofNat (48 + n % 10)] := by
  by_cases h1 : n < 10
  · rw [natDigits_one n h1, padLeft]
    have h2 : n / 100 = 0 := by omega
    have h3 : n / 10 % 10 = 0 := by omega
    have h4 : n % 10 = n := by omega
    have hc : Char.ofNat (48 + 0) = '0' := by decide
    rw [h2, h3, h4, hc]
    simp [List.replicate]
  · by_cases h2 : n < 100
    · rw [natDigits_two n (by omega) h2, padLeft]
      have h3 : n / 100 = 0 := by omega
      have h4 : n / 10 % 10 = n / 10 := by omega
      have hc : Char.ofNat (48 + 0) = '0' := by decide
      rw [h3, h4, hc]
      simp [List.replicate]
    · rw [natDigits_three n (by omega) h, padLeft]
      simp

theorem readDigits_pad2 (n : ℕ) (h : n < 100) (rest : List Char) :
    readDigits 2 0 (padLeft 2 (natDigits n) ++ rest) = some (n, rest) := by
  rw [pad2_eq n h]
  simp only [List.cons_append, List.nil_append]
  rw [readDigits_succ_digit _ _ _ _ (ofNat_digit_isDigit _ (by omega)),
    ofNat_digit_toNat _ (by omega),
    readDigits_succ_digit _ _ _ _ (ofNat_digit_isDigit _ (by omega)),
    ofNat_digit_toNat _ (by omega), readDigits]
  simp only [Option.some.injEq, Prod.mk.injEq]
  exact ⟨by omega, trivial⟩

theorem readDigits_pad3 (n : ℕ) (h : n < 1000) (rest : List Char) :
    readDigits 3 0 (padLeft 3 (natDigits n) ++ rest) = some (n, rest) := by
  rw [pad3_eq n h]
  simp only [List.cons_append, List.nil_append]
  rw [readDigits_succ_digit _ _ _ _ (ofNat_digit_isDigit _ (by omega)),
    ofNat_digit_toNat _ (by omega),
    readDigits_succ_digit _ _ _ _ (ofNat_digit_isDigit _ (by omega)),
    ofNat_digit_toNat _ (by omega),
    readDigits_succ_digit _ _ _ _ (ofNat_digit_isDigit _ (by omega)),
    ofNat_digit_toNat _ (by omega), readDigits]
  simp only [Option.some.injEq, Prod.mk.injEq]
  exact ⟨by omega, trivial⟩

theorem expectChar_same (c : Char) (cs : List Char) : expectChar c (c :: cs) = some cs := by
  rw [expectChar, if_pos rfl]

theorem readSrtTime_format (h m s ms : ℕ) (hh : h < 100) (hm : m < 100) (hs : s < 100)
    (hms : ms < 1000) (rest : List Char) :
    readSrtTime (padLeft 2 (natDigits h) ++ ':' :: (padLeft 2 (natDigits m) ++
        ':' :: (padLeft 2 (natDigits s) ++ ',' :: (padLeft 3 (natDigits ms) ++ rest))))
      = some (⟨h, m, s, ms⟩, rest) := by
  rw [readSrtTime]
  rw [readDigits_pad2 h hh]
  simp only [Option.bind_eq_bind, Option.some_bind]
  rw [expectChar_same]
  simp only [Option.some_bind]
  rw [readDigits_pad2 m hm]
  simp only [Option.some_bind]
  rw [expectChar_same]
  simp only [Option.some_bind]
  rw [readDigits_pad2 s hs]
  simp only [Option.some_bind]
  rw [expectChar_same]
  simp only [Option.some_bind]
  rw [readDigits_pad3 ms hms]
  simp only [Option.some_bind]
  rfl

/-- Claim C10: for every `ms` below 100 hours (so the hours field fits the
two-digit `%02d` rendering that `_TIME_RE` requires), the millisecond
round trip is exact: `time_to_ms (ms_to_time ms) = some ms`. -/
theorem time_to_ms_roundtrip (ms : ℕ) (h : ms < 360000000) :
    time_to_ms (ms_to_time ms) = some ms := by
  rw [ms_to_time, time_to_ms]
  rw [← List.append_nil (padLeft 3 (natDigits (ms % 3600000 % 60000 % 1000)))]
  have hsd : ∀ l : List Char, (String.mk l).data = l := fun _ => rfl
  rw [hsd]
  simp only [List.append_assoc, List.cons_append]
  rw [readSrtTime_format (ms / 3600000) (ms % 3600000 / 60000) (ms % 3600000 % 60000 / 1000)
    (ms % 3600000 % 60000 % 1000) (by omega) (by omega) (by omega) (by omega) []]
  rw [Option.map_some']
  rw [time_to_ms_fields]
  simp only [Option.some.injEq]
  omega

theorem time_to_ms_roundtrip_witness :
    83456 < 360000000 ∧ time_to_ms (ms_to_time 83456) = some 83456 :=
  ⟨by norm_num, time_to_ms_roundtrip 83456 (by norm_num)⟩

theorem readDigits_lt : ∀ (k acc : ℕ) (cs : List Char) (v : ℕ) (rest : List Char),
    readDigits k acc cs = some (v, rest) → v < (acc + 1) * 10 ^ k := by
  intro k
  induction k with
  | zero =>
    intro acc cs v rest h
    rw [readDigits] at h
    simp only [Option.some.injEq, Prod.mk.injEq] at h
    omega
  | succ k ih =>
    intro acc cs v rest h
    cases cs with
    | nil => simp [readDigits] at h
    | cons c cs2 =>
      rw [readDigits] at h
      by_cases hd : c.isDigit
      · rw [if_pos hd] at h
        have hb := ih (acc * 10 + (c.toNat - 48)) cs2 v rest h
        have hd10 := isDigit_toNat_lt c hd
        have h1 : (acc * 10 + (c.toNat - 48) + 1) * 10 ^ k ≤ (acc + 1) * 10 ^ (k + 1) := by
          rw [pow_succ]
          have : acc * 10 + (c.toNat - 48) + 1 ≤ (acc + 1) * 10 := by omega
          calc (acc * 10 + (c.toNat - 48) + 1) * 10 ^ k ≤ (acc + 1) * 10 * 10 ^ k :=
            Nat.mul_le_mul_right _ this
          _ = (acc + 1) * (10 ^ k * 10) := by ring
        omega
      · rw [if_neg hd] at h
        exact absurd h (by simp)

theorem readSrtTime_bounds (cs : List Char) (t : SrtTime) (rest : List Char)
    (h : readSrtTime cs = some (t, rest)) :
    t.hours < 100 ∧ t.minutes < 100 ∧ t.seconds < 100 ∧ t.millis < 1000 := by
  rw [readSrtTime] at h
  simp only [Option.bind_eq_bind, Option.bind_eq_some] at h
  obtain ⟨⟨h1, cs1⟩, hr1, h⟩ := h
  obtain ⟨cs2, hr2, h⟩ := h
  obtain ⟨⟨m1, cs3⟩, hr3, h⟩ := h
  obtain ⟨cs4, hr4, h⟩ := h
  obtain ⟨⟨s1, cs5⟩, hr5, h⟩ := h
  obtain ⟨cs6, hr6, h⟩ := h
  obtain ⟨⟨ms1, cs7⟩, hr7, h⟩ := h
  simp only [Option.pure_def, Option.some.injEq, Prod.mk.injEq] at h
  obtain ⟨ht, -⟩ := h
  subst ht
  have b1 := readDigits_lt 2 0 cs h1 cs1 hr1
  have b2 := readDigits_lt 2 0 cs2 m1 cs3 hr3
  have b3 := readDigits_lt 2 0 cs4 s1 cs5 hr5
  have b4 := readDigits_lt 3 0 cs6 ms1 cs7 hr7
  norm_num at b1 b2 b3 b4
  exact ⟨b1, b2, b3, b4⟩

theorem parseTimecodeLine_bounds (line : String) (t1 t2 : SrtTime)
    (h : parseTimecodeLine line = some (t1, t2)) :
    is_valid_timecode t1 = true ∧ is_valid_timecode t2 = true := by
  rw [parseTimecodeLine] at h
  simp only [Option.bind_eq_bind, Option.bind_eq_some] at h
  obtain ⟨⟨ta, cs1⟩, hr1, h⟩ := h
  obtain ⟨cs2, hr2, h⟩ := h
  obtain ⟨cs3, hr3, h⟩ := h
  obtain ⟨cs4, hr4, h⟩ := h
  obtain ⟨⟨tb, cs5⟩, hr5, h⟩ := h
  simp only [Option.pure_def, Option.some.injEq, Prod.mk.injEq] at h
  obtain ⟨ht1, ht2⟩ := h
  subst ht1
  subst ht2
  have b1 := readSrtTime_bounds _ _ _ hr1
  have b2 := readSrtTime_bounds _ _ _ hr5
  constructor <;> · rw [is_valid_timecode]; simp_all

/-- Claim C9: `parse_srt` (i) silently skips any block with fewer than three
lines, continuing with the next block; (ii) fails with an error naming the
block number when the ordinal line is not an integer; (iii) fails with an
error naming the block number when the timecode line is malformed; and
(iv) for a well-formed block whose cue has `start >= end` or duration
outside [100 ms, 15000 ms], fails with an error identifying the block number
and the entry index. -/
theorem parse_srt_error_handling :
    (∀ (i : ℕ) (block : List String) (rest : List (List String)),
        block.length < 3 →
        parseBlocksAux i (block :: rest) = parseBlocksAux (i + 1) rest) ∧
    (∀ (i : ℕ) (l0 l1 l2 : String) (ls : List String) (rest : List (List String)),
        pyIntParse l0 = none →
        parseBlocksAux i ((l0 :: l1 :: l2 :: ls) :: rest)
          = Except.error (.invalidIndex i l0)) ∧
    (∀ (i : ℕ) (l0 l1 l2 : String) (ls : List String) (rest : List (List String)) (n : ℤ),
        pyIntParse l0 = some n → parseTimecodeLine l1 = none →
        parseBlocksAux i ((l0 :: l1 :: l2 :: ls) :: rest)
          = Except.error (.invalidTimecode i l1)) ∧
    (∀ (i : ℕ) (l0 l1 l2 : String) (ls : List String) (rest : List (List String)) (n : ℤ)
        (t1 t2 : SrtTime),
        pyIntParse l0 = some n → parseTimecodeLine l1 = some (t1, t2) →
        (time_to_ms_fields t2 ≤ time_to_ms_fields t1 ∨
          ((time_to_ms_fields t2 : ℤ) - (time_to_ms_fields t1 : ℤ)) < 100 ∨
          15000 < ((time_to_ms_fields t2 : ℤ) - (time_to_ms_fields t1 : ℤ))) →
        ∃ err, parseBlocksAux i ((l0 :: l1 :: l2 :: ls) :: rest)
          = Except.error (.invalidSubtitle i n err)) := by
  refine ⟨?_, ?_, ?_, ?_⟩
  · intro i block rest h
    have hb : parseBlock i block = Except.ok none := by
      match block, h with
      | [], _ => rfl
      | [a], _ => rfl
      | [a, b], _ => rfl
      | a :: b :: c :: tl, h =>
        simp at h
        omega
    rw [parseBlocksAux, hb]
  · intro i l0 l1 l2 ls rest h
    rw [parseBlocksAux]
    simp only [parseBlock, h]
  · intro i l0 l1 l2 ls rest n h1 h2
    rw [parseBlocksAux]
    simp only [parseBlock, h1, h2]
  · intro i l0 l1 l2 ls rest n t1 t2 h1 h2 hbad
    obtain ⟨hv1, hv2⟩ := parseTimecodeLine_bounds l1 t1 t2 h2
    have hvalgen : ∀ text : String, ∃ err, (⟨n, t1, t2, text⟩ : Subtitle).validate = some err ∧
        (err = .startNotBeforeEnd t1 t2 ∨
          err = .durationTooShort ((time_to_ms_fields t2 : ℤ) - (time_to_ms_fields t1 : ℤ)) ∨
          err = .durationTooLong ((time_to_ms_fields t2 : ℤ) - (time_to_ms_fields t1 : ℤ))) := by
      intro text
      rw [Subtitle.validate]
      simp only [Subtitle.end_ms, Subtitle.start_ms, Subtitle.duration_ms]
      rw [if_neg (by simp [hv1]), if_neg (by simp [hv2])]
      by_cases hse : time_to_ms_fields t2 ≤ time_to_ms_fields t1
      · exact ⟨_, by rw [if_pos hse], Or.inl rfl⟩
      · rw [if_neg hse]
        by_cases hshort : ((time_to_ms_fields t2 : ℤ) - (time_to_ms_fields t1 : ℤ)) < 100
        · exact ⟨_, by rw [if_pos hshort], Or.inr (Or.inl rfl)⟩
        · have hlong : 15000 < ((time_to_ms_fields t2 : ℤ) - (time_to_ms_fields t1 : ℤ)) := by
            rcases hbad with h | h | h
            · exact absurd h hse
            · exact absurd h hshort
            · exact h
          rw [if_neg hshort]
          exact ⟨_, by rw [if_pos hlong], Or.inr (Or.inr rfl)⟩
    obtain ⟨err, herr, -⟩ :=
      hvalgen (String.mk (pyStripChars (joinTextLines (l2 :: ls)).data))
    refine ⟨err, ?_⟩
    rw [parseBlocksAux]
    simp only [parseBlock, h1, h2, herr]

theorem parse_srt_error_handling_witness :
    (["1", "00:00:00,000 --> 00:00:01,000"].length < 3 ∧
      parseBlocksAux 1 [["1", "00:00:00,000 --> 00:00:01,000"]] = parseBlocksAux 2 []) ∧
    (pyIntParse "x" = none ∧
      parseBlocksAux 1 [["x", "a", "b"]] = Except.error (.invalidIndex 1 "x")) ∧
    (pyIntParse "2" = some 2 ∧ parseTimecodeLine "bad" = none ∧
      parseBlocksAux 1 [["2", "bad", "t"]] = Except.error (.invalidTimecode 1 "bad")) ∧
    (pyIntParse "3" = some 3 ∧
      parseTimecodeLine "00:00:01,000 --> 00:00:00,500"
        = some (⟨0, 0, 1, 0⟩, ⟨0, 0, 0, 500⟩) ∧
      ∃ err, parseBlocksAux 1 [["3", "00:00:01,000 --> 00:00:00,500", "t"]]
        = Except.error (.invalidSubtitle 1 3 err)) := by
  refine ⟨⟨by decide, parse_srt_error_handling.1 1 _ [] (by decide)⟩,
    ⟨by decide, parse_srt_error_handling.2.1 1 "x" "a" "b" [] [] (by decide)⟩,
    ⟨by decide, by decide,
      parse_srt_error_handling.2.2.1 1 "2" "bad" "t" [] [] 2 (by decide) (by decide)⟩,
    ⟨by decide, by decide,
      parse_srt_error_handling.2.2.2 1 "3" "00:00:01,000 --> 00:00:00,500" "t" [] [] 3
        ⟨0, 0, 1, 0⟩ ⟨0, 0, 0, 500⟩ (by decide) (by decide) (Or.inl (by decide))⟩⟩
